import Mathlib

/-!
# Verification of the `crc32` SFV command-line tool

A shallow embedding of `src/main.rs` of the `crc32` utility: CRC-32 checksum
computation over files, recursive file enumeration, SFV document generation
(`create_sfv`) and verification (`verify_sfv`).

Modelling conventions:
* Text is a list of characters (`Str`); the source operates on UTF-8 strings
  and byte indices, which coincide with character indices on the ASCII range
  that the claims exercise.
* File contents are character lists as well; a byte is the character's code.
* The filesystem is explicit data: an association list from canonical
  absolute path to contents for hashing, and a directory tree skeleton for
  enumeration.
* The process working directory is threaded as explicit state through the
  model of `verify_sfv`.
* A Rust panic (the out-of-range string slice on short SFV lines) is a
  distinguished result value, not an exception.
-/

set_option maxRecDepth 4000

namespace CrcTool

/-- Text as a character list. -/
abbrev Str := List Char

/-- Whitespace test used by `str::trim` (ASCII range). -/
def isWs (c : Char) : Bool := c = ' ' || c = '\t' || c = '\n' || c = '\r'

/-- Model of `str::trim`: drop whitespace from both ends. -/
def trimStr (s : Str) : Str := ((s.dropWhile isWs).reverse.dropWhile isWs).reverse

/-- Model of `str::to_uppercase` on the ASCII range. -/
def upperStr (s : Str) : Str := s.map Char.toUpper

/-! ## CRC-32 (ISO-HDLC) -/

/-- One bit-step of the reflected CRC-32/ISO-HDLC algorithm.
Modelled from the spec: the accumulator update itself lives in the external
`crc32fast` dependency, outside this repository; the spec fixes the variant
to the standard zlib/gzip polynomial (reflected 0xEDB88320). -/
def crcBitStep (c : Nat) : Nat := if c % 2 = 1 then (c / 2) ^^^ 0xEDB88320 else c / 2

/-- Iterate `crcBitStep`. -/
def crcBitSteps : Nat → Nat → Nat
  | 0, c => c
  | n + 1, c => crcBitSteps n (crcBitStep c)

/-- Feed one byte into the CRC accumulator. -/
def crcByte (c b : Nat) : Nat := crcBitSteps 8 (c ^^^ (b % 256))

/-- Initial CRC accumulator value. -/
def crcInit : Nat := 0xFFFFFFFF

/-- Reference CRC-32/ISO-HDLC of a byte sequence (init `0xFFFFFFFF`,
final xor `0xFFFFFFFF`). Modelled from the spec. -/
def crc32_ref (bs : List Nat) : Nat := (bs.foldl crcByte crcInit) ^^^ 0xFFFFFFFF

/-- Model of `fn crc32` (src/main.rs:38-61): the file is read as a sequence of
chunks (each `read` call returns one chunk until end of stream); every chunk is
fed to the hasher via `update`, and the result is `finalize`d. -/
def crc32_chunks (chunks : List (List Nat)) : Nat :=
  (chunks.foldl (fun c chunk => chunk.foldl crcByte c) crcInit) ^^^ 0xFFFFFFFF

/-- CRC-32 of text contents (bytes are the character codes). -/
def crc32_str (s : Str) : Nat := crc32_ref (s.map Char.toNat)

/-- The byte sequence `"123456789"`, the standard CRC check-value input. -/
def checkBytes : List Nat := [0x31, 0x32, 0x33, 0x34, 0x35, 0x36, 0x37, 0x38, 0x39]

/-! ## Lines and hexadecimal rendering -/

/-- Split text at every newline character (the segments of `str::lines`
before the trailing-segment adjustment). -/
def splitNl : Str → List Str
  | [] => [[]]
  | c :: rest =>
    if c = '\n' then [] :: splitNl rest
    else
      match splitNl rest with
      | [] => [[c]]
      | s :: ss => (c :: s) :: ss

/-- Drop a trailing carriage return, as `str::lines` does per line. -/
def stripCr (l : Str) : Str := if l.getLast? = some '\r' then l.dropLast else l

/-- Model of `str::lines`: split on newlines; text after the last newline is a
line only when nonempty; each line loses a trailing carriage return. -/
def linesOf (s : Str) : List Str :=
  let segs := splitNl s
  (if segs.getLast? = some [] then segs.dropLast else segs).map stripCr

/-- Join document lines, each terminated by a newline, as the accumulated
`out_text` of `create_sfv` is built by `writeln!`. -/
def joinLines (ls : List Str) : Str := (ls.map (fun l => l ++ ['\n'])).flatten

/-- Uppercase hexadecimal digit for a value below 16. -/
def hexDigit (d : Nat) : Char := if d < 10 then Char.ofNat (48 + d) else Char.ofNat (55 + d)

/-- Model of `format!` with the 08X spec on a 32-bit value: exactly eight
uppercase hexadecimal digits. -/
def toHex8 (n : Nat) : Str :=
  [hexDigit (n / 16 ^ 7 % 16), hexDigit (n / 16 ^ 6 % 16), hexDigit (n / 16 ^ 5 % 16),
   hexDigit (n / 16 ^ 4 % 16), hexDigit (n / 16 ^ 3 % 16), hexDigit (n / 16 ^ 2 % 16),
   hexDigit (n / 16 % 16), hexDigit (n % 16)]

/-! ## Filesystem model for hashing

An association list from canonical absolute path to file contents.  Opening a
file succeeds exactly when its resolved path is a key; `fs::canonicalize` on
such a path yields the path itself (keys are already canonical). -/

/-- Path-to-contents map. -/
abbrev FsMap := List (Str × Str)

/-- Look a path up in the filesystem map. -/
def lookupFs (fs : FsMap) (p : Str) : Option Str :=
  match fs with
  | [] => none
  | (k, v) :: rest => if k = p then some v else lookupFs rest p

/-- Resolve a path against a current directory: absolute paths (leading '/')
stand alone, relative ones are joined below the directory. -/
def resolve (cwd p : Str) : Str := if p.head? = some '/' then p else cwd ++ '/' :: p

/-- Model of `Path::parent` on canonical absolute paths: strip the last
component; the parent of a single top-level component is the root. -/
def parentDir (p : Str) : Option Str :=
  match p.reverse.dropWhile (fun c => c != '/') with
  | [] => none
  | _ :: rest => if rest = [] then some ['/'] else some rest.reverse

/-- Model of `Path::strip_prefix` against the working directory followed by
`unwrap_or`: when the canonical path lies below `cwd`, drop that leading part,
otherwise keep the canonical path unchanged (src/main.rs:147-151). -/
def stripCwd (cwd p : Str) : Str :=
  if p.take (cwd.length + 1) = cwd ++ ['/'] then p.drop (cwd.length + 1) else p

/-! ## Verification (`verify_sfv`, src/main.rs:183-234) -/

/-- Per-record verification outcome: the console line printed for a record. -/
inductive Outcome where
  | ok (path : Str)
  | mismatch (path : Str) (computed expected : Str)
  | error (path : Str) (cause : Str)
deriving DecidableEq, Repr

/-- Whether an outcome is the OK outcome. -/
def Outcome.isOk : Outcome → Bool
  | .ok _ => true
  | _ => false

/-- Result of the per-line loop: either the out-of-range slice panic on a
short line, or normal completion with the `all_ok` flag and the emitted
outcomes in order. -/
inductive LoopRes where
  | panic
  | done (allOk : Bool) (outs : List Outcome)
deriving DecidableEq, Repr

/-- Model of the per-line loop of `verify_sfv` (src/main.rs:202-229), with the
working directory already switched to `dir`.  Each line is trimmed; empty and
comment lines are skipped; a trimmed line shorter than 8 characters hits the
out-of-range slice and panics; otherwise the last 8 characters (uppercased)
are the expected checksum and the rest, trimmed, is the path, which is opened
relative to `dir` and hashed. -/
def verifyLines (fs : FsMap) (dir : Str) : List Str → LoopRes
  | [] => .done true []
  | line :: rest =>
    let t := trimStr line
    if t.isEmpty || t.head? = some ';' then verifyLines fs dir rest
    else if t.length < 8 then .panic
    else
      let p := trimStr (t.take (t.length - 8))
      let expected := upperStr (t.drop (t.length - 8))
      let out : Outcome :=
        match lookupFs fs (resolve dir p) with
        | some contents =>
          if toHex8 (crc32_str contents) = expected then .ok p
          else .mismatch p (toHex8 (crc32_str contents)) expected
        | none => .error p (resolve dir p)
      match verifyLines fs dir rest with
      | .panic => .panic
      | .done b outs => .done (out.isOk && b) (out :: outs)

/-- Result of a whole `verify_sfv` run. -/
inductive VerifyRes where
  | fatal (msg : Str)
  | panic
  | done (allOk : Bool) (outs : List Outcome)
deriving DecidableEq, Repr

/-- Model of `verify_sfv` (src/main.rs:183-234).  Returns the run result and
the final process working directory.  Reading the SFV file resolves against
the original working directory `cwd0`; its canonical path's parent becomes the
working directory for the loop; the original directory is restored after the
loop.  A panic mid-loop leaves the directory as it was at that moment. -/
def verify_sfv (fs : FsMap) (cwd0 : Str) (sfvPath : Str) : VerifyRes × Str :=
  match lookupFs fs (resolve cwd0 sfvPath) with
  | none => (.fatal (resolve cwd0 sfvPath), cwd0)
  | some text =>
    let canon := resolve cwd0 sfvPath
    let dir := match parentDir canon with
      | some d => d
      | none => cwd0
    match verifyLines fs dir (linesOf text) with
    | .panic => (.panic, dir)
    | .done b outs => (.done b outs, cwd0)

/-! ## Generation (`create_sfv`, src/main.rs:132-177) -/

/-- Result of a `create_sfv` run: the returned `all_ok` flag, the per-file
document/console lines in order, the per-file error reports, and the output
file written at the end (path and full text) when one was requested. -/
structure CreateRes where
  allOk : Bool
  lines : List Str
  failures : List Str
  written : Option (Str × Str)
deriving DecidableEq, Repr

/-- One document line: relative path, a space, eight hex digits. -/
def fileLine (relPath : Str) (checksum : Nat) : Str := relPath ++ ' ' :: toHex8 checksum

/-- The per-file loop of `create_sfv` (src/main.rs:140-169): hash each file;
on success canonicalize (in the model a readable path is its own canonical
form), strip the working-directory part, and emit the line; on failure
(unreadable file, covering both the `crc32` and the `fs::canonicalize` error
arms) report the error, clear `all_ok`, and continue with the next file. -/
def createLoop (fs : FsMap) (cwd : Str) : List Str → Bool × List Str × List Str
  | [] => (true, [], [])
  | f :: rest =>
    let r := createLoop fs cwd rest
    match lookupFs fs (resolve cwd f) with
    | some contents =>
      (r.1, fileLine (stripCwd cwd (resolve cwd f)) (crc32_str contents) :: r.2.1, r.2.2)
    | none => (false, r.2.1, resolve cwd f :: r.2.2)

/-- Model of `create_sfv` on an already-enumerated file list: run the loop,
then, when an output path was given, write the accumulated text there (this
write happens whether or not every file succeeded). -/
def create_sfv (fs : FsMap) (cwd : Str) (files : List Str) (outFile : Option Str) : CreateRes :=
  let r := createLoop fs cwd files
  { allOk := r.1, lines := r.2.1, failures := r.2.2,
    written := outFile.map (fun p => (resolve cwd p, joinLines r.2.1)) }

/-- Apply the written output file to the filesystem map. -/
def writeOut (r : CreateRes) (fs : FsMap) : FsMap :=
  match r.written with
  | some (p, t) => (p, t) :: fs
  | none => fs

/-! ## Path ordering

Rust sorts `Vec<PathBuf>` with `PathBuf`'s `Ord`, which compares the sequence
of path components (root first, then the component names byte-wise), not the
raw path string.  The model mirrors that for paths built from root and normal
components (no `.` or `..`, the only kinds the tool produces). -/

/-- Three-way comparison of characters by code point. -/
def charCmp (a b : Char) : Ordering := compare a.toNat b.toNat

/-- Lexicographic three-way comparison of lists. -/
def listCmp (cmp : α → α → Ordering) : List α → List α → Ordering
  | [], [] => .eq
  | [], _ :: _ => .lt
  | _ :: _, [] => .gt
  | a :: l, b :: m => if cmp a b = .eq then listCmp cmp l m else cmp a b

/-- Components of a path string: a leading '/' becomes the root component
(encoded as the string "/"), empty segments from repeated or trailing
separators are dropped, exactly as `Path::components` normalizes. -/
def comps (p : Str) : List Str :=
  let segs := (p.splitOn '/').filter (fun s => s ≠ [])
  if p.head? = some '/' then ['/'] :: segs else segs

/-- Compare two components: root sorts before every normal component, normal
components compare byte-wise. -/
def compCmp (a b : Str) : Ordering :=
  if a = ['/'] then (if b = ['/'] then .eq else .lt)
  else if b = ['/'] then .gt
  else listCmp charCmp a b

/-- Three-way `PathBuf` comparison. -/
def pathCmp (p q : Str) : Ordering := listCmp compCmp (comps p) (comps q)

/-- The sorting order used on file lists. -/
def PathLe (p q : Str) : Prop := pathCmp p q ≠ Ordering.gt

instance : DecidableRel PathLe := fun p q => by unfold PathLe; infer_instance

/-- The stable sort applied by `files.sort()`. -/
def sortPaths (l : List Str) : List Str := List.insertionSort PathLe l

/-- Rebuild a path from its components. -/
def joinComps (cs : List Str) : Str :=
  match cs with
  | ['/'] :: rest => '/' :: List.intercalate ['/'] rest
  | _ => List.intercalate ['/'] cs

/-- A path is normalized when splitting into components and rebuilding gives
it back (no repeated, trailing or superfluous separators). -/
def normalizedPath (p : Str) : Prop := joinComps (comps p) = p

instance : DecidablePred normalizedPath := fun p => by unfold normalizedPath; infer_instance

/-! ## File enumeration (`get_files` / `get_all_files`, src/main.rs:66-126)

The directory skeleton is explicit data: a node is a regular file, something
that is neither file nor directory, a directory whose listing call fails, or a
directory with a list of entries, each of which is either unreadable (`Err`
from the iterator) or a named child. -/

/-- A filesystem object as the enumerator observes it. -/
inductive FsObj where
  | fileO : FsObj
  | otherO : FsObj
  | dirErr : FsObj
  | dirOk (entries : List (Option (Str × FsObj))) : FsObj

/-- `Path::is_dir`: metadata says directory (even when listing it will fail). -/
def FsObj.isDir : FsObj → Bool
  | .dirErr => true
  | .dirOk _ => true
  | _ => false

/-- `Path::is_file`. -/
def FsObj.isFile : FsObj → Bool
  | .fileO => true
  | _ => false

mutual
/-- Model of `get_files` (src/main.rs:66-99): list a directory, failing when
the listing call fails; on success return the discovered file paths together
with the warnings printed along the way. -/
def get_files (dirPath : Str) (recursive : Bool) : FsObj → Except Str (List Str × List Str)
  | .dirOk entries => .ok (getEntries dirPath recursive entries)
  | _ => .error dirPath

/-- The entry loop of `get_files`: an unreadable entry is skipped with a
warning; a directory entry is recursed into only when `recursive` is set, its
own failure being skipped with a warning; a file entry is collected; anything
else is ignored. -/
def getEntries (dirPath : Str) (recursive : Bool) :
    List (Option (Str × FsObj)) → List Str × List Str
  | [] => ([], [])
  | none :: rest =>
    let r := getEntries dirPath recursive rest
    (r.1, dirPath :: r.2)
  | some (name, o) :: rest =>
    let r := getEntries dirPath recursive rest
    let child := dirPath ++ '/' :: name
    if recursive && o.isDir then
      match get_files child true o with
      | .ok r2 => (r2.1 ++ r.1, r2.2 ++ r.2)
      | .error e => (r.1, e :: r.2)
    else if o.isFile then (child :: r.1, r.2)
    else (r.1, r.2)
end

/-- Contribution of one top-level input path (the body of the loop of
`get_all_files`, src/main.rs:109-122): a directory is listed via `get_files`,
a listing failure being reported and skipped; a regular file is taken as is;
anything else is skipped silently. -/
def collectOne (input : Str × FsObj) (recursive : Bool) : List Str × List Str :=
  if input.2.isDir then
    match get_files input.1 recursive input.2 with
    | .ok r => r
    | .error e => ([], [e])
  else if input.2.isFile then ([input.1], [])
  else ([], [])

/-- All discovered files and warnings, concatenated in input order, before
the sort. -/
def collectAll (inputs : List (Str × FsObj)) (recursive : Bool) : List Str × List Str :=
  match inputs with
  | [] => ([], [])
  | x :: rest =>
    let r1 := collectOne x recursive
    let r := collectAll rest recursive
    (r1.1 ++ r.1, r1.2 ++ r.2)

/-- Model of `get_all_files` (src/main.rs:104-126): concatenate every input's
contribution, then sort the file list. -/
def get_all_files (inputs : List (Str × FsObj)) (recursive : Bool) : List Str × List Str :=
  let r := collectAll inputs recursive
  (sortPaths r.1, r.2)

/-! ## `main` (src/main.rs:237-265) -/

/-- Process exit code for the verify branch of `main`: 0 on overall success,
1 on any non-OK outcome or fatal error, 101 being the Rust panic exit. -/
def exitOf : VerifyRes → Nat
  | .done true _ => 0
  | .done false _ => 1
  | .fatal _ => 1
  | .panic => 101

/-- Model of `main`: clap guarantees at least one positional path, split here
into `first` and `rest`.  With `--verify` the first path is handed to
`verify_sfv`; otherwise all paths go through enumeration into `create_sfv`.
`tree` gives the directory skeleton each path denotes. -/
def mainRun (fs : FsMap) (tree : Str → FsObj) (cwd : Str) (first : Str) (rest : List Str)
    (recursive : Bool) (outFile : Option Str) (verifyFlag : Bool) : Nat :=
  if verifyFlag then exitOf (verify_sfv fs cwd first).1
  else
    let files := (get_all_files ((first :: rest).map (fun p => (p, tree p))) recursive).1
    if (create_sfv fs cwd files outFile).allOk then 0 else 1

/-- Shorthand for character-list literals. -/
def strL (s : String) : Str := s.toList

/-! ## Round-trip side conditions -/

/-- The first character exists and is not whitespace. -/
def firstNonWs : Str → Bool
  | [] => false
  | c :: _ => !isWs c

/-- No newline or carriage-return characters. -/
def noNl (s : Str) : Bool := s.all fun c => c ≠ '\n' && c ≠ '\r'

/-- A rendered relative path that survives the SFV text round trip: nonempty,
no surrounding whitespace, no line breaks, and not starting like a comment. -/
def goodRel (s : Str) : Bool :=
  firstNonWs s && firstNonWs s.reverse && noNl s && s.head? != some ';'

/-- Conditions under which a file participates cleanly in the round trip:
it can be opened, its rendered relative path is well behaved, resolving that
rendered path from the SFV file's directory leads back to the same file, and
the file is not the output SFV file itself. -/
def goodFile (fs : FsMap) (cwd sfvAbs f : Str) : Bool :=
  (lookupFs fs (resolve cwd f)).isSome &&
  goodRel (stripCwd cwd (resolve cwd f)) &&
  (resolve cwd (stripCwd cwd (resolve cwd f)) == resolve cwd f) &&
  (resolve cwd f != sfvAbs)

/-- The outcomes a clean round trip produces: one OK per generated record. -/
def roundOuts (cwd : Str) (files : List Str) : List Outcome :=
  files.map fun f => Outcome.ok (stripCwd cwd (resolve cwd f))

/-!
# Theorems
-/

/-- C2: for every byte sequence, however the stream of reads chunks it, the
computed checksum is the reference CRC-32/ISO-HDLC value of the concatenated
bytes; the empty file hashes to 0x00000000; and the reference value on
`"123456789"` is the published ISO-HDLC check value `0xCBF43926`. -/
theorem crc32_matches_reference :
    (∀ chunks : List (List Nat), crc32_chunks chunks = crc32_ref chunks.flatten) ∧
    crc32_ref [] = 0 ∧ crc32_ref checkBytes = 0xCBF43926 := by
  refine ⟨fun chunks => ?_, by decide, by decide⟩
  unfold crc32_chunks crc32_ref
  rw [List.foldl_flatten]

/-- C10: in verify mode `main` hands exactly the first positional path to
`verify_sfv`; additional positional paths, the recursive flag and the out-file
option have no effect on the run or its exit code. -/
theorem verify_mode_uses_first_path_only (fs : FsMap) (tree tree' : Str → FsObj)
    (cwd first : Str) (rest rest' : List Str) (r r' : Bool) (o o' : Option Str) :
    mainRun fs tree cwd first rest r o true = mainRun fs tree' cwd first rest' r' o' true ∧
    mainRun fs tree cwd first rest r o true = exitOf (verify_sfv fs cwd first).1 := by
  exact ⟨rfl, rfl⟩

/-- Unfolding equation for the record case of the per-line loop. -/
theorem verifyLines_record (fs : FsMap) (dir line : Str) (rest : List Str)
    (h1 : trimStr line ≠ []) (h2 : (trimStr line).head? ≠ some ';')
    (h3 : 8 ≤ (trimStr line).length) :
    verifyLines fs dir (line :: rest) =
      (let t := trimStr line
       let p := trimStr (t.take (t.length - 8))
       let expected := upperStr (t.drop (t.length - 8))
       let out : Outcome :=
         match lookupFs fs (resolve dir p) with
         | some contents =>
           if toHex8 (crc32_str contents) = expected then .ok p
           else .mismatch p (toHex8 (crc32_str contents)) expected
         | none => .error p (resolve dir p)
       match verifyLines fs dir rest with
       | .panic => LoopRes.panic
       | .done b outs => .done (out.isOk && b) (out :: outs)) := by
  have e1 : (trimStr line).isEmpty = false := by
    cases hh : trimStr line with
    | nil => exact absurd hh h1
    | cons a l => rfl
  rw [verifyLines]
  simp [e1, h2, Nat.not_lt.mpr h3]

/-- C4 (amended): during verification, a line that is blank after trimming or
whose first character is ';' is skipped and produces no outcome record; every
other line whose trimmed length is at least 8 is split fixed-width, the last 8
characters of the trimmed line (uppercased) becoming the expected checksum and
everything before them, trimmed again, the path (so paths containing spaces
are tolerated); a non-skipped line with trimmed length below 8 instead hits
the out-of-range slice. -/
theorem verify_line_parsing (fs : FsMap) (dir line : Str) (rest : List Str) :
    (trimStr line = [] ∨ (trimStr line).head? = some ';' →
      verifyLines fs dir (line :: rest) = verifyLines fs dir rest) ∧
    (trimStr line ≠ [] → (trimStr line).head? ≠ some ';' → 8 ≤ (trimStr line).length →
      verifyLines fs dir (line :: rest) =
        (let t := trimStr line
         let p := trimStr (t.take (t.length - 8))
         let expected := upperStr (t.drop (t.length - 8))
         let out : Outcome :=
           match lookupFs fs (resolve dir p) with
           | some contents =>
             if toHex8 (crc32_str contents) = expected then .ok p
             else .mismatch p (toHex8 (crc32_str contents)) expected
           | none => .error p (resolve dir p)
         match verifyLines fs dir rest with
         | .panic => LoopRes.panic
         | .done b outs => .done (out.isOk && b) (out :: outs))) := by
  constructor
  · intro h
    rw [verifyLines]
    rcases h with h | h
    · simp [h, List.isEmpty_iff]
    · simp [h]
  · exact verifyLines_record fs dir line rest

/-- C4 counterexample: the line `"1234567"` is neither blank nor a comment,
yet it is not split into a path and checksum field — the loop hits the
out-of-range slice instead. -/
theorem seven_char_line_not_split :
    verifyLines [] [] [strL "1234567"] = .panic ∧
    trimStr (strL "1234567") ≠ [] ∧ (trimStr (strL "1234567")).head? ≠ some ';' := by
  decide

/-- C4 witness: a record path may contain spaces. -/
theorem verify_line_parsing_witness :
    verifyLines [] [] [strL "a b 12345678"] =
      .done false [.error (strL "a b") (strL "/a b")] := by
  have h := (verify_line_parsing [] [] (strL "a b 12345678") []).2
    (by decide) (by decide) (by decide)
  rw [h]
  decide

/-- C7 (amended): a non-comment, non-blank SFV line whose trimmed length is
strictly below 8 characters hits the out-of-range string slice, aborting the
loop (a panic) rather than producing a per-record outcome; a trimmed length of
exactly 8 is sliced successfully. -/
theorem short_line_panics (fs : FsMap) (dir line : Str) (rest : List Str)
    (h1 : trimStr line ≠ []) (h2 : (trimStr line).head? ≠ some ';')
    (h3 : (trimStr line).length < 8) :
    verifyLines fs dir (line :: rest) = .panic := by
  have e1 : (trimStr line).isEmpty = false := by
    cases hh : trimStr line with
    | nil => exact absurd hh h1
    | cons a l => rfl
  rw [verifyLines]
  simp [e1, h2, h3]

/-- C7 counterexample: a line of trimmed length exactly 8 (within the claim's
"at most 8") does not produce an out-of-range slice condition; it is sliced
into an empty path and an 8-character checksum field and yields a normal
per-record outcome (here ERROR, as the empty path cannot be opened). -/
theorem eight_char_line_normal_outcome :
    verifyLines [] (strL "/d") [strL "AAAAAAAA"] =
      .done false [.error [] (strL "/d/")] := by
  decide

/-- C7 witness: a 7-character line panics. -/
theorem short_line_panics_witness :
    verifyLines [] (strL "/d") [strL "0123456", strL "AAAAAAAA"] = .panic :=
  short_line_panics [] (strL "/d") (strL "0123456") [strL "AAAAAAAA"]
    (by decide) (by decide) (by decide)

/-- Completing the loop yields `all_ok` = "every emitted outcome is OK". -/
theorem verifyLines_done_allOk (fs : FsMap) (dir : Str) :
    ∀ (lines : List Str) (b : Bool) (outs : List Outcome),
      verifyLines fs dir lines = .done b outs → b = outs.all Outcome.isOk := by
  intro lines
  induction lines with
  | nil =>
    intro b outs h
    rw [verifyLines] at h
    cases h
    rfl
  | cons line rest ih =>
    intro b outs h
    rw [verifyLines] at h
    split at h
    · exact ih b outs h
    · split at h
      · exact absurd h (by simp)
      · cases hrec : verifyLines fs dir rest with
        | panic => rw [hrec] at h; exact absurd h (by simp)
        | done b' outs' =>
          rw [hrec] at h
          simp only [LoopRes.done.injEq] at h
          obtain ⟨hb, houts⟩ := h
          subst hb
          subst houts
          rw [List.all_cons, ih b' outs' hrec]

/-- C5: during verification, a record whose checksum computation fails (the
referenced file cannot be opened) yields exactly one ERROR outcome carrying
the cause, and the loop continues with the remaining lines; completing the
run gives overall success exactly when every emitted outcome is OK. -/
theorem verify_error_continues_success_iff (fs : FsMap) (dir : Str) :
    (∀ lines b outs, verifyLines fs dir lines = .done b outs →
      b = outs.all Outcome.isOk) ∧
    (∀ line rest, trimStr line ≠ [] → (trimStr line).head? ≠ some ';' →
      8 ≤ (trimStr line).length →
      lookupFs fs
        (resolve dir (trimStr ((trimStr line).take ((trimStr line).length - 8)))) = none →
      verifyLines fs dir (line :: rest) =
        match verifyLines fs dir rest with
        | .panic => LoopRes.panic
        | .done _ outs =>
          .done false
            (Outcome.error (trimStr ((trimStr line).take ((trimStr line).length - 8)))
              (resolve dir (trimStr ((trimStr line).take ((trimStr line).length - 8))))
              :: outs)) := by
  refine ⟨verifyLines_done_allOk fs dir, fun line rest h1 h2 h3 h4 => ?_⟩
  rw [verifyLines_record fs dir line rest h1 h2 h3]
  simp only [h4]
  cases hrec : verifyLines fs dir rest with
  | panic => rfl
  | done b' outs' => simp [Outcome.isOk]

/-- C5 witness: a missing file gives one ERROR outcome, the following line is
still processed, and the final flag equals the all-OK conjunction. -/
theorem verify_error_continues_witness :
    (verifyLines [] [] [strL "nope 12345678", strL "; end"] =
      .done false [.error (strL "nope") (strL "/nope")]) ∧
    false = [Outcome.error (strL "nope") (strL "/nope")].all Outcome.isOk := by
  constructor
  · rw [(verify_error_continues_success_iff [] []).2 (strL "nope 12345678")
      [strL "; end"] (by decide) (by decide) (by decide) (by decide)]
    decide
  · exact (verify_error_continues_success_iff [] []).1
      [strL "nope 12345678", strL "; end"] false
      [Outcome.error (strL "nope") (strL "/nope")] (by decide)

/-- C6 (amended): during verification the working directory is switched to the
parent directory of the checksum file, and the original directory is restored
on every exit path of the run except the out-of-range slice panic on a
malformed short line, which aborts with the directory still changed. -/
theorem verify_restores_directory (fs : FsMap) (cwd0 sfvPath : Str)
    (h : (verify_sfv fs cwd0 sfvPath).1 ≠ .panic) :
    (verify_sfv fs cwd0 sfvPath).2 = cwd0 := by
  unfold verify_sfv at h ⊢
  cases hl : lookupFs fs (resolve cwd0 sfvPath) with
  | none => simp only [hl]
  | some text =>
    simp only [hl] at h ⊢
    cases hv : verifyLines fs
        (match parentDir (resolve cwd0 sfvPath) with
          | some d => d
          | none => cwd0) (linesOf text) with
    | panic => simp only [hv] at h; exact absurd rfl h
    | done b outs => simp only [hv]

/-- C6 counterexample: an SFV file whose only line is 7 characters long makes
the loop panic after the directory was changed to the file's parent; the run
exits with the working directory left at `/d`, not restored to `/home`. -/
theorem panic_leaves_directory_changed :
    verify_sfv [(strL "/d/f.sfv", strL "1234567")] (strL "/home") (strL "/d/f.sfv") =
      (.panic, strL "/d") ∧ strL "/d" ≠ strL "/home" := by
  decide

/-- C6 witness: a run that completes restores the original directory. -/
theorem verify_restores_directory_witness :
    (verify_sfv [(strL "/d/f.sfv", strL "; empty")] (strL "/home") (strL "/d/f.sfv")).2 =
      strL "/home" :=
  verify_restores_directory [(strL "/d/f.sfv", strL "; empty")] (strL "/home")
    (strL "/d/f.sfv") (by decide)

/-- C1 (amended): during generation, a failure while canonicalizing or
computing the checksum of a file is reported for that file and clears the
`all_ok` flag (so the process exits non-zero), but the run continues with the
remaining files, and the output file, when requested, is still written — it
contains the lines of the files that succeeded. -/
theorem create_failure_reported_and_run_continues (fs : FsMap) (cwd f : Str)
    (rest : List Str) (out : Option Str) (h : lookupFs fs (resolve cwd f) = none) :
    create_sfv fs cwd (f :: rest) out =
      { allOk := false,
        lines := (create_sfv fs cwd rest out).lines,
        failures := resolve cwd f :: (create_sfv fs cwd rest out).failures,
        written :=
          out.map fun p => (resolve cwd p, joinLines (create_sfv fs cwd rest out).lines) } := by
  have e : createLoop fs cwd (f :: rest) =
      (false, (createLoop fs cwd rest).2.1, resolve cwd f :: (createLoop fs cwd rest).2.2) := by
    rw [createLoop]
    simp only [h]
  unfold create_sfv
  rw [e]

/-- C1 counterexample: with two enumerated files of which the first cannot be
hashed, the run does not abort — the second file is still processed — and a
partial output file is written, containing the successful file's line. -/
theorem create_failure_counterexample :
    create_sfv [(strL "/w/good", strL "hi")] (strL "/w") [strL "bad", strL "good"]
        (some (strL "out.sfv")) =
      { allOk := false,
        lines := [strL "good D8932AAC"],
        failures := [strL "/w/bad"],
        written := some (strL "/w/out.sfv", strL "good D8932AAC\n") } := by
  decide

/-- C1 witness: the amended statement at a concrete input. -/
theorem create_failure_witness :
    create_sfv [(strL "/w/good", strL "hi")] (strL "/w") [strL "bad"]
        (some (strL "out.sfv")) =
      { allOk := false,
        lines := (create_sfv [(strL "/w/good", strL "hi")] (strL "/w") []
          (some (strL "out.sfv"))).lines,
        failures := resolve (strL "/w") (strL "bad") ::
          (create_sfv [(strL "/w/good", strL "hi")] (strL "/w") []
            (some (strL "out.sfv"))).failures,
        written := (some (strL "out.sfv")).map fun p => (resolve (strL "/w") p,
          joinLines (create_sfv [(strL "/w/good", strL "hi")] (strL "/w") []
            (some (strL "out.sfv"))).lines) } :=
  create_failure_reported_and_run_continues [(strL "/w/good", strL "hi")] (strL "/w")
    (strL "bad") [] (some (strL "out.sfv")) (by decide)

/-- The entry loop distributes over appended entry lists. -/
theorem getEntries_append (d : Str) (r : Bool) (l1 l2 : List (Option (Str × FsObj))) :
    getEntries d r (l1 ++ l2) =
      ((getEntries d r l1).1 ++ (getEntries d r l2).1,
        (getEntries d r l1).2 ++ (getEntries d r l2).2) := by
  induction l1 with
  | nil => simp [getEntries]
  | cons e rest ih =>
    cases e with
    | none => simp [getEntries, ih]
    | some x =>
      obtain ⟨name, o⟩ := x
      by_cases hd : r && o.isDir
      · cases hg : get_files (d ++ '/' :: name) true o with
        | ok r2 => simp [getEntries, hd, hg, ih]
        | error e => simp [getEntries, hd, hg, ih]
      · by_cases hf : o.isFile
        · simp [getEntries, hd, hf, ih]
        · simp [getEntries, hd, hf, ih]

/-- The input loop distributes over appended input lists. -/
theorem collectAll_append (l1 l2 : List (Str × FsObj)) (r : Bool) :
    collectAll (l1 ++ l2) r =
      ((collectAll l1 r).1 ++ (collectAll l2 r).1,
        (collectAll l1 r).2 ++ (collectAll l2 r).2) := by
  induction l1 with
  | nil => simp [collectAll]
  | cons x rest ih => simp [collectAll, ih]

/-- C9: top-level enumeration is total — it always returns a file list (its
result type carries no error).  A directory whose listing call fails
contributes no files and exactly one printed warning, with the remaining
inputs still enumerated; an input that is neither a regular file nor a
directory is skipped silently (no file and no warning); and inside a
directory listing an unreadable entry is skipped with one warning while the
remaining entries are still processed. -/
theorem enumeration_total_and_skipping (recursive : Bool) :
    (∀ pre suf p, get_all_files (pre ++ (p, FsObj.dirErr) :: suf) recursive =
      ((get_all_files (pre ++ suf) recursive).1,
        (collectAll pre recursive).2 ++ p :: (collectAll suf recursive).2)) ∧
    (∀ pre suf p, get_all_files (pre ++ (p, FsObj.otherO) :: suf) recursive =
      get_all_files (pre ++ suf) recursive) ∧
    (∀ d pre suf, getEntries d recursive (pre ++ none :: suf) =
      ((getEntries d recursive (pre ++ suf)).1,
        (getEntries d recursive pre).2 ++ d :: (getEntries d recursive suf).2)) := by
  refine ⟨fun pre suf p => ?_, fun pre suf p => ?_, fun d pre suf => ?_⟩
  · have h1 : collectAll ((p, FsObj.dirErr) :: suf) recursive =
        ((collectAll suf recursive).1, p :: (collectAll suf recursive).2) := by
      simp [collectAll, collectOne, FsObj.isDir, get_files]
    unfold get_all_files
    rw [collectAll_append, collectAll_append, h1]
  · have h1 : collectAll ((p, FsObj.otherO) :: suf) recursive =
        collectAll suf recursive := by
      simp [collectAll, collectOne, FsObj.isDir, FsObj.isFile]
    unfold get_all_files
    rw [collectAll_append, collectAll_append, h1]
  · have h1 : getEntries d recursive (none :: suf) =
        ((getEntries d recursive suf).1, d :: (getEntries d recursive suf).2) := by
      simp [getEntries]
    rw [getEntries_append, getEntries_append, h1]

/-- Componentwise list comparison answers `eq` only on equal lists, given the
element comparator does. -/
theorem listCmp_eq_of {α : Type} {cmp : α → α → Ordering}
    (hcmp : ∀ a b, cmp a b = .eq → a = b) :
    ∀ l m, listCmp cmp l m = .eq → l = m
  | [], [], _ => rfl
  | [], _ :: _, h => by simp [listCmp] at h
  | _ :: _, [], h => by simp [listCmp] at h
  | a :: l, b :: m, h => by
    unfold listCmp at h
    by_cases hc : cmp a b = .eq
    · rw [if_pos hc] at h
      rw [hcmp a b hc, listCmp_eq_of hcmp l m h]
    · rw [if_neg hc] at h
      exact absurd h hc

/-- Swapping the arguments of a list comparison swaps the answer. -/
theorem listCmp_swap {α : Type} {cmp : α → α → Ordering}
    (hswap : ∀ a b, cmp b a = (cmp a b).swap) :
    ∀ l m, listCmp cmp m l = (listCmp cmp l m).swap
  | [], [] => rfl
  | [], _ :: _ => rfl
  | _ :: _, [] => rfl
  | a :: l, b :: m => by
    unfold listCmp
    rw [hswap a b]
    cases h : cmp a b with
    | eq => simpa using listCmp_swap hswap l m
    | lt => rfl
    | gt => rfl

/-- Strict list comparison is transitive, given the element comparator is. -/
theorem listCmp_lt_trans {α : Type} {cmp : α → α → Ordering}
    (heq : ∀ a b, cmp a b = .eq → a = b)
    (hlt : ∀ a b c, cmp a b = .lt → cmp b c = .lt → cmp a c = .lt) :
    ∀ l m n, listCmp cmp l m = .lt → listCmp cmp m n = .lt → listCmp cmp l n = .lt
  | l, [], n, h1, h2 => by
    cases l <;> simp [listCmp] at h1
  | l, _ :: _, [], h1, h2 => by simp [listCmp] at h2
  | [], _ :: _, _ :: _, h1, h2 => by simp [listCmp]
  | a :: l, b :: m, c :: n, h1, h2 => by
    unfold listCmp at h1 h2 ⊢
    by_cases hab : cmp a b = .eq
    · have hab' := heq a b hab
      subst hab'
      rw [if_pos hab] at h1
      by_cases hac : cmp a c = .eq
      · rw [if_pos hac] at h2 ⊢
        exact listCmp_lt_trans heq hlt l m n h1 h2
      · rw [if_neg hac] at h2 ⊢
        exact h2
    · rw [if_neg hab] at h1
      by_cases hbc : cmp b c = .eq
      · have hbc' := heq b c hbc
        subst hbc'
        rw [if_neg hab]
        exact h1
      · rw [if_neg hbc] at h2
        have hac : cmp a c = .lt := hlt a b c h1 h2
        rw [hac]
        simp

/-- `charCmp` answers `eq` only on equal characters. -/
theorem charCmp_eq (a b : Char) (h : charCmp a b = .eq) : a = b := by
  have hn : a.toNat = b.toNat := Nat.compare_eq_eq.mp h
  have ha := Char.ofNat_toNat a
  have hb := Char.ofNat_toNat b
  rw [← ha, ← hb, hn]

/-- `charCmp` is reflexive. -/
theorem charCmp_refl (a : Char) : charCmp a a = .eq := Nat.compare_eq_eq.mpr rfl

/-- `charCmp` swaps. -/
theorem charCmp_swap (a b : Char) : charCmp b a = (charCmp a b).swap := by
  unfold charCmp
  rcases Nat.lt_trichotomy a.toNat b.toNat with h | h | h
  · rw [Nat.compare_eq_lt.mpr h, Nat.compare_eq_gt.mpr h]; rfl
  · rw [h, Nat.compare_eq_eq.mpr rfl]; rfl
  · rw [Nat.compare_eq_gt.mpr h, Nat.compare_eq_lt.mpr h]; rfl

/-- `charCmp` strict comparison is transitive. -/
theorem charCmp_lt_trans (a b c : Char) (h1 : charCmp a b = .lt) (h2 : charCmp b c = .lt) :
    charCmp a c = .lt :=
  Nat.compare_eq_lt.mpr (Nat.lt_trans (Nat.compare_eq_lt.mp h1) (Nat.compare_eq_lt.mp h2))

/-- `compCmp` answers `eq` only on equal components. -/
theorem compCmp_eq (a b : Str) (h : compCmp a b = .eq) : a = b := by
  unfold compCmp at h
  by_cases ha : a = ['/'] <;> by_cases hb : b = ['/'] <;> simp [ha, hb] at h
  · rw [ha, hb]
  · exact listCmp_eq_of charCmp_eq a b h

/-- `compCmp` is reflexive. -/
theorem compCmp_refl (a : Str) : compCmp a a = .eq := by
  unfold compCmp
  by_cases ha : a = ['/'] <;> simp [ha]
  exact listCmp_eq_refl
where
  listCmp_eq_refl : listCmp charCmp a a = .eq := by
    induction a with
    | nil => rfl
    | cons c l ih => unfold listCmp; rw [charCmp_refl]; exact ih

/-- `compCmp` swaps. -/
theorem compCmp_swap (a b : Str) : compCmp b a = (compCmp a b).swap := by
  unfold compCmp
  by_cases ha : a = ['/'] <;> by_cases hb : b = ['/'] <;>
    simp [ha, hb, Ordering.swap]
  exact listCmp_swap charCmp_swap a b

/-- `compCmp` strict comparison is transitive. -/
theorem compCmp_lt_trans (a b c : Str) (h1 : compCmp a b = .lt) (h2 : compCmp b c = .lt) :
    compCmp a c = .lt := by
  unfold compCmp at h1 h2 ⊢
  by_cases ha : a = ['/'] <;> by_cases hb : b = ['/'] <;> by_cases hc : c = ['/'] <;>
    simp [ha, hb, hc] at h1 h2 ⊢
  exact listCmp_lt_trans charCmp_eq charCmp_lt_trans a b c h1 h2

/-- Equal path comparison means equal component lists. -/
theorem pathCmp_eq_comps (p q : Str) (h : pathCmp p q = .eq) : comps p = comps q :=
  listCmp_eq_of compCmp_eq (comps p) (comps q) h

/-- `pathCmp` swaps. -/
theorem pathCmp_swap (p q : Str) : pathCmp q p = (pathCmp p q).swap :=
  listCmp_swap compCmp_swap (comps p) (comps q)

/-- The path order is total. -/
theorem pathLe_total (p q : Str) : PathLe p q ∨ PathLe q p := by
  unfold PathLe
  by_cases h : pathCmp p q = .gt
  · right
    rw [pathCmp_swap, h]
    simp [Ordering.swap]
  · left
    exact h

/-- The path order is transitive. -/
theorem pathLe_trans {p q r : Str} (h1 : PathLe p q) (h2 : PathLe q r) : PathLe p r := by
  unfold PathLe pathCmp at h1 h2 ⊢
  cases hpq : listCmp compCmp (comps p) (comps q) with
  | gt => exact absurd hpq h1
  | eq => rw [listCmp_eq_of compCmp_eq _ _ hpq]; exact h2
  | lt =>
    cases hqr : listCmp compCmp (comps q) (comps r) with
    | gt => exact absurd hqr h2
    | eq =>
      rw [← listCmp_eq_of compCmp_eq _ _ hqr, hpq]
      simp
    | lt =>
      rw [listCmp_lt_trans compCmp_eq compCmp_lt_trans _ _ _ hpq hqr]
      simp

instance : IsTotal Str PathLe := ⟨pathLe_total⟩

instance : IsTrans Str PathLe := ⟨fun _ _ _ => pathLe_trans⟩

/-- The sort used by `get_all_files` sorts by the path order. -/
theorem sortPaths_sorted (l : List Str) : List.Sorted PathLe (sortPaths l) :=
  List.sorted_insertionSort PathLe l

/-- The sort permutes its input. -/
theorem sortPaths_perm (l : List Str) : (sortPaths l).Perm l :=
  List.perm_insertionSort PathLe l

/-- On normalized paths the path order is antisymmetric. -/
theorem pathLe_antisym {p q : Str} (hp : normalizedPath p) (hq : normalizedPath q)
    (h1 : PathLe p q) (h2 : PathLe q p) : p = q := by
  unfold PathLe at h1 h2
  have he : pathCmp p q = .eq := by
    cases h : pathCmp p q with
    | eq => rfl
    | gt => exact absurd h h1
    | lt =>
      have : pathCmp q p = .gt := by rw [pathCmp_swap, h]; rfl
      exact absurd this h2
  have hc := pathCmp_eq_comps p q he
  unfold normalizedPath at hp hq
  rw [← hp, ← hq, hc]

/-- Two sorted lists of normalized paths that are permutations of each other
are equal. -/
theorem sorted_eq_of_perm :
    ∀ l₁ l₂ : List Str, (∀ p ∈ l₁, normalizedPath p) → l₁.Perm l₂ →
      List.Sorted PathLe l₁ → List.Sorted PathLe l₂ → l₁ = l₂ := by
  intro l₁
  induction l₁ with
  | nil =>
    intro l₂ _ hp _ _
    exact hp.nil_eq
  | cons a t₁ ih =>
    intro l₂ hnorm hp hs₁ hs₂
    cases l₂ with
    | nil => exact absurd hp.symm.nil_eq (by simp)
    | cons b t₂ =>
      have hab : a = b := by
        have ha2 : a ∈ b :: t₂ := hp.mem_iff.mp (List.mem_cons_self a t₁)
        have hb1 : b ∈ a :: t₁ := hp.mem_iff.mpr (List.mem_cons_self b t₂)
        rcases List.mem_cons.mp ha2 with h | h
        · exact h
        rcases List.mem_cons.mp hb1 with h' | h'
        · exact h'.symm
        have le1 : PathLe a b := List.rel_of_sorted_cons hs₁ b h'
        have le2 : PathLe b a := List.rel_of_sorted_cons hs₂ a h
        exact pathLe_antisym (hnorm a (by simp)) (hnorm b (by simp [h'])) le1 le2
      subst hab
      rw [ih t₂ (fun p hp' => hnorm p (by simp [hp'])) hp.cons_inv hs₁.of_cons hs₂.of_cons]

/-- Sorting two collections that are permutations of each other (normalized
paths) gives the same list. -/
theorem sortPaths_eq_of_perm {l₁ l₂ : List Str} (h : l₁.Perm l₂)
    (hn : ∀ p ∈ l₁, normalizedPath p) : sortPaths l₁ = sortPaths l₂ :=
  sorted_eq_of_perm (sortPaths l₁) (sortPaths l₂)
    (fun p hp => hn p ((sortPaths_perm l₁).mem_iff.mp hp))
    ((sortPaths_perm l₁).trans (h.trans (sortPaths_perm l₂).symm))
    (sortPaths_sorted l₁) (sortPaths_sorted l₂)

/-- The files contributed by one directory entry. -/
def entryFiles (d : Str) (r : Bool) : Option (Str × FsObj) → List Str
  | none => []
  | some (name, o) =>
    if r && o.isDir then
      match get_files (d ++ '/' :: name) true o with
      | .ok r2 => r2.1
      | .error _ => []
    else if o.isFile then [d ++ '/' :: name] else []

/-- The entry loop's file list is the flattened per-entry contribution. -/
theorem getEntries_files_eq_flatten (d : Str) (r : Bool) :
    ∀ es, (getEntries d r es).1 = (es.map (entryFiles d r)).flatten
  | [] => by simp [getEntries]
  | none :: rest => by
    simp [getEntries, entryFiles, getEntries_files_eq_flatten d r rest]
  | some (name, o) :: rest => by
    rw [getEntries]
    by_cases hd : r && o.isDir
    · cases hg : get_files (d ++ '/' :: name) true o with
      | ok r2 => simp [hd, hg, entryFiles, getEntries_files_eq_flatten d r rest]
      | error e => simp [hd, hg, entryFiles, getEntries_files_eq_flatten d r rest]
    · by_cases hf : o.isFile
      · simp [hd, hf, entryFiles, getEntries_files_eq_flatten d r rest]
      · simp [hd, hf, entryFiles, getEntries_files_eq_flatten d r rest]

/-- Permuting a directory's listing permutes the discovered files. -/
theorem getEntries_perm (d : Str) (r : Bool) {es es' : List (Option (Str × FsObj))}
    (h : es.Perm es') : (getEntries d r es).1.Perm (getEntries d r es').1 := by
  rw [getEntries_files_eq_flatten, getEntries_files_eq_flatten]
  exact (h.map (entryFiles d r)).flatten

/-- The files contributed by one top-level input. -/
def inputFiles (r : Bool) (x : Str × FsObj) : List Str := (collectOne x r).1

/-- The collected file list is the flattened per-input contribution. -/
theorem collectAll_files_eq_flatten (r : Bool) :
    ∀ inputs, (collectAll inputs r).1 = (inputs.map (inputFiles r)).flatten
  | [] => by simp [collectAll]
  | x :: rest => by
    simp [collectAll, inputFiles, collectAll_files_eq_flatten r rest]

/-- C3 (amended): `get_all_files` concatenates the discovered entries of all
inputs first and sorts the concatenation; the result is sorted — not by raw
path string, but by `PathBuf`'s component order — and, for normalized paths,
it is independent of the order in which the inputs are interleaved and of the
order in which the filesystem returns a directory's entries. -/
theorem get_all_files_sorted_and_order_independent :
    (∀ inputs r, get_all_files inputs r =
      (sortPaths (collectAll inputs r).1, (collectAll inputs r).2)) ∧
    (∀ inputs r, List.Sorted PathLe (get_all_files inputs r).1) ∧
    (∀ (inputs₁ inputs₂ : List (Str × FsObj)) r, inputs₁.Perm inputs₂ →
      (∀ p ∈ (collectAll inputs₁ r).1, normalizedPath p) →
      (get_all_files inputs₁ r).1 = (get_all_files inputs₂ r).1) ∧
    (∀ p es es' r pre suf, es.Perm es' →
      (∀ q ∈ (collectAll (pre ++ (p, FsObj.dirOk es) :: suf) r).1, normalizedPath q) →
      (get_all_files (pre ++ (p, FsObj.dirOk es) :: suf) r).1 =
        (get_all_files (pre ++ (p, FsObj.dirOk es') :: suf) r).1) := by
  refine ⟨fun inputs r => rfl, fun inputs r => sortPaths_sorted _,
    fun inputs₁ inputs₂ r hperm hn => ?_, fun p es es' r pre suf hperm hn => ?_⟩
  · show sortPaths (collectAll inputs₁ r).1 = sortPaths (collectAll inputs₂ r).1
    refine sortPaths_eq_of_perm ?_ hn
    rw [collectAll_files_eq_flatten, collectAll_files_eq_flatten]
    exact (hperm.map (inputFiles r)).flatten
  · show sortPaths (collectAll (pre ++ (p, FsObj.dirOk es) :: suf) r).1 =
      sortPaths (collectAll (pre ++ (p, FsObj.dirOk es') :: suf) r).1
    refine sortPaths_eq_of_perm ?_ hn
    rw [collectAll_append, collectAll_append]
    have hone : ∀ es0 : List (Option (Str × FsObj)),
        (collectAll ((p, FsObj.dirOk es0) :: suf) r).1 =
          (getEntries p r es0).1 ++ (collectAll suf r).1 := by
      intro es0
      simp [collectAll, collectOne, FsObj.isDir, get_files]
    rw [hone, hone]
    exact ((getEntries_perm p r hperm).append_right _).append_left _

/-- Byte-wise lexicographic order on whole path strings.  Modelled from the
spec: the claim's "sorted lexicographically by path string", stated for
comparison with the component order the code actually sorts by. -/
def StrLe (p q : Str) : Prop := listCmp charCmp p q ≠ Ordering.gt

instance : DecidableRel StrLe := fun p q => by unfold StrLe; infer_instance

/-- C3 counterexample: `PathBuf` order is not raw string order.  With the two
regular files `a-b` and `a/b` as inputs, the enumerator returns `a/b` before
`a-b` ('/' splits components, and `a` is a proper prefix of `a-b`), although
byte-wise `a-b` sorts before `a/b`; the output is not sorted lexicographically
by path string. -/
theorem get_all_files_not_string_sorted :
    (get_all_files [(strL "a-b", FsObj.fileO), (strL "a/b", FsObj.fileO)] false).1 =
      [strL "a/b", strL "a-b"] ∧
    ¬ List.Sorted StrLe [strL "a/b", strL "a-b"] := by
  constructor
  · decide
  · intro h
    exact absurd (List.rel_of_sorted_cons h (strL "a-b") (by simp)) (by decide)

/-- C3 witness: interleaving the same two inputs in either order gives the
same sorted output. -/
theorem get_all_files_order_witness :
    (get_all_files [(strL "b", FsObj.fileO), (strL "a", FsObj.fileO)] false).1 =
      (get_all_files [(strL "a", FsObj.fileO), (strL "b", FsObj.fileO)] false).1 :=
  (get_all_files_sorted_and_order_independent.2.2.1
    [(strL "b", FsObj.fileO), (strL "a", FsObj.fileO)]
    [(strL "a", FsObj.fileO), (strL "b", FsObj.fileO)] false
    (List.Perm.swap _ _ _) (by decide))

/-- Whitespace-dropping stops immediately at a non-whitespace head. -/
theorem dropWhile_isWs_eq_self {s : Str} (h : firstNonWs s = true) :
    s.dropWhile isWs = s := by
  cases s with
  | nil => simp [firstNonWs] at h
  | cons c l =>
    unfold firstNonWs at h
    rw [List.dropWhile_cons, if_neg]
    simp at h
    simp [h]

/-- `firstNonWs` only looks at the front of an appended list. -/
theorem firstNonWs_append {a : Str} (b : Str) (h : firstNonWs a = true) :
    firstNonWs (a ++ b) = true := by
  cases a with
  | nil => simp [firstNonWs] at h
  | cons c l => exact h

/-- Trimming fixes a string with non-whitespace ends. -/
theorem trimStr_eq_self {s : Str} (h1 : firstNonWs s = true)
    (h2 : firstNonWs s.reverse = true) : trimStr s = s := by
  unfold trimStr
  rw [dropWhile_isWs_eq_self h1, dropWhile_isWs_eq_self h2, List.reverse_reverse]

/-- Trimming a well-behaved path followed by one space gives the path back. -/
theorem trimStr_append_space {rel : Str} (h1 : firstNonWs rel = true)
    (h2 : firstNonWs rel.reverse = true) : trimStr (rel ++ [' ']) = rel := by
  unfold trimStr
  rw [dropWhile_isWs_eq_self (firstNonWs_append [' '] h1), List.reverse_append]
  show ((' ' :: rel.reverse).dropWhile isWs).reverse = rel
  rw [List.dropWhile_cons, if_pos (by decide), dropWhile_isWs_eq_self h2,
    List.reverse_reverse]

/-- Everything provable of each hex digit of a rendered checksum. -/
theorem hexDigit_mod (m : Nat) :
    (hexDigit (m % 16)).toUpper = hexDigit (m % 16) ∧
    isWs (hexDigit (m % 16)) = false ∧
    (hexDigit (m % 16) = '\n') = False ∧ (hexDigit (m % 16) = '\r') = False := by
  have h : m % 16 < 16 := Nat.mod_lt _ (by norm_num)
  generalize m % 16 = d at h ⊢
  interval_cases d <;>
    exact ⟨by decide, by decide, eq_false (by decide), eq_false (by decide)⟩

/-- The rendered checksum field: 8 characters, uppercase-invariant, free of
whitespace at its end and of line breaks. -/
theorem toHex8_props (n : Nat) :
    (toHex8 n).length = 8 ∧ upperStr (toHex8 n) = toHex8 n ∧
    firstNonWs (toHex8 n).reverse = true ∧ noNl (toHex8 n) = true := by
  refine ⟨rfl, ?_, ?_, ?_⟩
  · simp only [toHex8, upperStr, List.map_cons, List.map_nil,
      (hexDigit_mod _).1]
  · simp only [toHex8, List.reverse_cons, List.reverse_nil, List.nil_append,
      List.cons_append, List.append_assoc]
    show firstNonWs (hexDigit (n % 16) :: _) = true
    unfold firstNonWs
    simp [(hexDigit_mod n).2.1]
  · unfold noNl
    simp only [toHex8, List.all_cons, List.all_nil]
    simp [(hexDigit_mod _).2.2.1, (hexDigit_mod _).2.2.2]

/-- A successful `getLast?` is a member. -/
theorem getLast?_mem_of {α : Type} {l : List α} {a : α} (h : l.getLast? = some a) :
    a ∈ l := by
  obtain ⟨hne, heq⟩ := List.mem_getLast?_eq_getLast (l := l) (x := a) h
  rw [heq]
  exact List.getLast_mem hne

/-- Splitting at newlines peels off a newline-free first line. -/
theorem splitNl_append {l : Str} (h : l.all (fun c => c != '\n') = true) (t : Str) :
    splitNl (l ++ '\n' :: t) = l :: splitNl t := by
  induction l with
  | nil => simp [splitNl]
  | cons c l ih =>
    simp only [List.all_cons, Bool.and_eq_true, bne_iff_ne] at h
    show splitNl (c :: (l ++ '\n' :: t)) = (c :: l) :: splitNl t
    conv_lhs => rw [splitNl]
    rw [if_neg h.1, ih (by simpa using h.2)]

/-- Splitting the joined document recovers the lines plus a final empty
segment. -/
theorem splitNl_joinLines :
    ∀ ls : List Str, (∀ l ∈ ls, l.all (fun c => c != '\n') = true) →
      splitNl (joinLines ls) = ls ++ [[]]
  | [], _ => by simp [joinLines, splitNl]
  | l :: rest, h => by
    unfold joinLines
    simp only [List.map_cons, List.flatten_cons, List.append_assoc,
      List.singleton_append]
    rw [splitNl_append (h l (by simp))]
    have := splitNl_joinLines rest (fun x hx => h x (by simp [hx]))
    unfold joinLines at this
    rw [this]
    rfl

/-- Reading back the document written by the generator yields exactly its
lines, provided no line contains a line break. -/
theorem linesOf_joinLines (ls : List Str) (h : ∀ l ∈ ls, noNl l = true) :
    linesOf (joinLines ls) = ls := by
  have hnl : ∀ l ∈ ls, l.all (fun c => c != '\n') = true := by
    intro l hl
    have hx := h l hl
    unfold noNl at hx
    simp only [List.all_eq_true] at hx ⊢
    intro c hc
    have h2 := hx c hc
    simp only [Bool.and_eq_true, decide_eq_true_eq] at h2
    simpa using h2.1
  unfold linesOf
  rw [splitNl_joinLines ls hnl]
  show List.map stripCr
      (if (ls ++ [[]]).getLast? = some [] then (ls ++ [[]]).dropLast else ls ++ [[]]) = ls
  rw [if_pos (by simp), List.dropLast_concat]
  have hid : ∀ l ∈ ls, stripCr l = l := by
    intro l hl
    unfold stripCr
    rw [if_neg]
    intro hlast
    have hmem := getLast?_mem_of hlast
    have hx := h l hl
    unfold noNl at hx
    rw [List.all_eq_true] at hx
    have h2 := hx _ hmem
    simp only [Bool.and_eq_true, decide_eq_true_eq] at h2
    exact h2.2 rfl
  rw [List.map_congr_left hid]
  simp

/-- With every file readable, the generation loop succeeds and produces one
line per file in order. -/
theorem createLoop_all_good (fs : FsMap) (cwd : Str) :
    ∀ files, (∀ f ∈ files, (lookupFs fs (resolve cwd f)).isSome = true) →
      createLoop fs cwd files =
        (true,
         files.map (fun f => fileLine (stripCwd cwd (resolve cwd f))
           (crc32_str ((lookupFs fs (resolve cwd f)).getD []))),
         [])
  | [], _ => rfl
  | f :: rest, h => by
    rw [createLoop]
    cases ho : lookupFs fs (resolve cwd f) with
    | none => exact absurd (ho ▸ h f (by simp)) (by simp)
    | some contents =>
      rw [createLoop_all_good fs cwd rest (fun x hx => h x (by simp [hx]))]
      simp [ho]

/-- Verifying the generated lines of clean files yields OK for each one. -/
theorem verifyLines_roundtrip (fs : FsMap) (sfvAbs text cwd : Str) :
    ∀ files, (∀ f ∈ files, goodFile fs cwd sfvAbs f = true) →
      verifyLines ((sfvAbs, text) :: fs) cwd
        (files.map fun f => fileLine (stripCwd cwd (resolve cwd f))
          (crc32_str ((lookupFs fs (resolve cwd f)).getD []))) =
      .done true (roundOuts cwd files)
  | [], _ => rfl
  | f :: rest, h => by
    have hf := h f (by simp)
    unfold goodFile at hf
    simp only [Bool.and_eq_true, Option.isSome_iff_exists, beq_iff_eq, bne_iff_ne] at hf
    obtain ⟨⟨⟨⟨c, hc⟩, hrel⟩, hres⟩, hne⟩ := hf
    unfold goodRel at hrel
    simp only [Bool.and_eq_true, bne_iff_ne] at hrel
    obtain ⟨⟨⟨g1, g2⟩, g3⟩, g4⟩ := hrel
    obtain ⟨hlen8, hupper, hrev, hnlhex⟩ :=
      toHex8_props (crc32_str ((lookupFs fs (resolve cwd f)).getD []))
    have hihr := verifyLines_roundtrip fs sfvAbs text cwd rest (fun x hx => h x (by simp [hx]))
    set rel := stripCwd cwd (resolve cwd f) with hrel_def
    set n := crc32_str ((lookupFs fs (resolve cwd f)).getD []) with hn_def
    have hassoc : fileLine rel n = (rel ++ [' ']) ++ toHex8 n := by
      unfold fileLine
      simp
    have hline_trim : trimStr (fileLine rel n) = fileLine rel n := by
      apply trimStr_eq_self
      · exact firstNonWs_append _ g1
      · show firstNonWs (rel ++ ' ' :: toHex8 n).reverse = true
        rw [List.reverse_append, List.reverse_cons]
        exact firstNonWs_append _ (firstNonWs_append _ hrev)
    have hlen : (fileLine rel n).length = rel.length + 9 := by
      unfold fileLine
      simp only [List.length_append, List.length_cons, hlen8]
    have htake : (fileLine rel n).take ((fileLine rel n).length - 8) = rel ++ [' '] := by
      rw [hlen, hassoc]
      exact List.take_left' (by simp only [List.length_append, List.length_singleton]; omega)
    have hdrop : (fileLine rel n).drop ((fileLine rel n).length - 8) = toHex8 n := by
      rw [hlen, hassoc]
      exact List.drop_left' (by simp only [List.length_append, List.length_singleton]; omega)
    have hhead : (fileLine rel n).head? ≠ some ';' := by
      unfold fileLine
      cases hr : rel with
      | nil => rw [hr] at g1; simp [firstNonWs] at g1
      | cons a t => rw [hr] at g4; simpa using g4
    have hne_nil : fileLine rel n ≠ [] := by
      unfold fileLine
      cases rel <;> simp
    show verifyLines ((sfvAbs, text) :: fs) cwd (fileLine rel n :: _) = _
    rw [verifyLines_record _ _ _ _ (by rw [hline_trim]; exact hne_nil)
      (by rw [hline_trim]; exact hhead) (by rw [hline_trim, hlen]; omega)]
    simp only [hline_trim, htake, hdrop]
    rw [trimStr_append_space g1 g2, hupper]
    have hlook : lookupFs ((sfvAbs, text) :: fs) (resolve cwd rel) = some c := by
      unfold lookupFs
      rw [hres, if_neg (fun hh => hne hh.symm)]
      exact hc
    rw [hlook]
    have hcn : toHex8 (crc32_str c) = toHex8 n := by
      rw [hn_def, hc]
      rfl
    rw [hihr]
    simp [hcn, roundOuts, Outcome.isOk, hrel_def]

/-- C8 (amended): for every set of files whose rendered relative paths are
well behaved (nonempty, no surrounding whitespace, no line breaks, not
starting with ';', resolving back to the same file) and distinct from the
output file, generating an SFV document and then verifying that document
against the same unchanged filesystem — with the document sitting in the
directory the generation ran from — yields an OK outcome for every record,
overall success, and the restored working directory. -/
theorem sfv_roundtrip (fs : FsMap) (cwd : Str) (files : List Str) (outName : Str)
    (hparent : parentDir (resolve cwd outName) = some cwd)
    (hgood : ∀ f ∈ files, goodFile fs cwd (resolve cwd outName) f = true) :
    (create_sfv fs cwd files (some outName)).allOk = true ∧
    verify_sfv (writeOut (create_sfv fs cwd files (some outName)) fs) cwd outName =
      (.done true (roundOuts cwd files), cwd) ∧
    (roundOuts cwd files).all Outcome.isOk = true ∧
    (roundOuts cwd files).length = files.length := by
  have hsome : ∀ f ∈ files, (lookupFs fs (resolve cwd f)).isSome = true := by
    intro f hf
    have hg := hgood f hf
    unfold goodFile at hg
    simp only [Bool.and_eq_true] at hg
    exact hg.1.1.1
  have hloop := createLoop_all_good fs cwd files hsome
  have hcr : create_sfv fs cwd files (some outName) =
      { allOk := true,
        lines := files.map (fun f => fileLine (stripCwd cwd (resolve cwd f))
          (crc32_str ((lookupFs fs (resolve cwd f)).getD []))),
        failures := [],
        written := some (resolve cwd outName,
          joinLines (files.map (fun f => fileLine (stripCwd cwd (resolve cwd f))
            (crc32_str ((lookupFs fs (resolve cwd f)).getD []))))) } := by
    unfold create_sfv
    rw [hloop]
    rfl
  have hnoNl : ∀ l ∈ files.map (fun f => fileLine (stripCwd cwd (resolve cwd f))
      (crc32_str ((lookupFs fs (resolve cwd f)).getD []))), noNl l = true := by
    intro l hl
    simp only [List.mem_map] at hl
    obtain ⟨f, hf, hfl⟩ := hl
    have hg := hgood f hf
    unfold goodFile at hg
    simp only [Bool.and_eq_true] at hg
    have hr := hg.1.1.2
    unfold goodRel at hr
    simp only [Bool.and_eq_true] at hr
    have hrn := hr.1.2
    rw [← hfl]
    show noNl (fileLine _ _) = true
    have hhex := (toHex8_props (crc32_str ((lookupFs fs (resolve cwd f)).getD []))).2.2.2
    unfold fileLine
    unfold noNl at hrn hhex ⊢
    rw [List.all_append, List.all_cons]
    simp only [Bool.and_eq_true]
    exact ⟨hrn, by decide, hhex⟩
  refine ⟨by simp [hcr], ?_, by simp [roundOuts, List.all_map, Outcome.isOk, Function.comp],
    by simp [roundOuts]⟩
  rw [hcr]
  show verify_sfv ((resolve cwd outName, joinLines _) :: fs) cwd outName = _
  unfold verify_sfv
  have hlook : lookupFs ((resolve cwd outName,
      joinLines (files.map (fun f => fileLine (stripCwd cwd (resolve cwd f))
        (crc32_str ((lookupFs fs (resolve cwd f)).getD []))))) :: fs)
      (resolve cwd outName) = some (joinLines (files.map (fun f =>
        fileLine (stripCwd cwd (resolve cwd f))
          (crc32_str ((lookupFs fs (resolve cwd f)).getD []))))) := by
    rw [lookupFs]
    rw [if_pos rfl]
  rw [hlook]
  simp only [hparent]
  rw [linesOf_joinLines _ hnoNl]
  rw [verifyLines_roundtrip fs (resolve cwd outName) _ cwd files hgood]

/-- C8 counterexample: a file whose name ends in a space breaks the round
trip.  Generating an SFV for the single file `a ` (in `/w`) writes the line
`a  <hex>`; verifying that document trims the path field to `a`, which does
not exist, so the run reports ERROR and overall failure instead of all-OK. -/
theorem roundtrip_fails_for_trailing_space :
    verify_sfv
        (writeOut (create_sfv [(strL "/w/a ", strL "x")] (strL "/w") [strL "a "]
          (some (strL "o.sfv"))) [(strL "/w/a ", strL "x")])
        (strL "/w") (strL "o.sfv") =
      (.done false [.error (strL "a") (strL "/w/a")], strL "/w") := by
  decide

/-- C8 witness: the amended round trip at a concrete input. -/
theorem sfv_roundtrip_witness :
    (create_sfv [(strL "/w/a", strL "hi")] (strL "/w") [strL "a"]
      (some (strL "o.sfv"))).allOk = true ∧
    verify_sfv (writeOut (create_sfv [(strL "/w/a", strL "hi")] (strL "/w") [strL "a"]
        (some (strL "o.sfv"))) [(strL "/w/a", strL "hi")]) (strL "/w") (strL "o.sfv") =
      (.done true (roundOuts (strL "/w") [strL "a"]), strL "/w") ∧
    (roundOuts (strL "/w") [strL "a"]).all Outcome.isOk = true ∧
    (roundOuts (strL "/w") [strL "a"]).length = [strL "a"].length :=
  sfv_roundtrip [(strL "/w/a", strL "hi")] (strL "/w") [strL "a"] (strL "o.sfv")
    (by decide) (by decide)

end CrcTool
